import Mathlib

/-!
Verification development for the zo-market-maker-ts core.

The TypeScript sources are shallowly embedded over exact rationals:
`decimal.js` values and JS numbers both become `ℚ` (all arithmetic the
claims exercise is exact in the source ranges), `null` becomes `Option`,
and stateful classes become explicit state-passing functions.  Wall-clock
reads (`Date.now()`, `todayUtc()`) are passed in as explicit parameters.
-/

namespace ZoMM

/-! ## Enhanced quoter (src/bots/mm/enhanced-quoter.ts) -/

inductive QuoteSide where
  | bid
  | ask
deriving DecidableEq, Repr

/-- A desired quote: `{ side, price, size }` (prices and sizes are decimal.js
values in the source, embedded as exact rationals). -/
structure Quote where
  side : QuoteSide
  price : ℚ
  size : ℚ
deriving DecidableEq, Repr

/-- Venue best bid / best offer. -/
structure BBO where
  bestBid : ℚ
  bestAsk : ℚ
deriving DecidableEq, Repr

/-- `EnhancedQuoterConfig` exactly as declared in the source interface.
Note: the source interface declares neither `minSkewBps` nor
`closeThresholdUsd`, although the presets in configs.ts supply both. -/
structure EnhancedQuoterConfig where
  baseSpreadBps : ℚ
  maxSpreadBps : ℚ
  volMultiplier : ℚ
  skewFactor : ℚ
  maxPositionUsd : ℚ
  sizeReductionStart : ℚ
  levels : ℕ
  levelSpacingBps : ℚ
  momentumPenaltyBps : ℚ
deriving Repr

/-- `EnhancedQuotingContext` from the source. -/
structure EnhancedQuotingContext where
  fairPrice : ℚ
  positionUsd : ℚ
  positionBase : ℚ
  volatilityBps : Option ℚ
  momentumBps : ℚ
deriving Repr

/-- The `EnhancedQuoter` instance fields set up by its constructor. -/
structure EnhancedQuoter where
  tickSize : ℚ
  lotSize : ℚ
  minSpreadBps : ℚ
  config : EnhancedQuoterConfig
  orderSizeUsd : ℚ
deriving Repr

/-- The constructor: `tickSize = 10^-priceDecimals`,
`lotSize = 10^-sizeDecimals`, `minSpreadBps = 2 * makerFeeBps`. -/
def EnhancedQuoter.make (priceDecimals sizeDecimals : ℕ)
    (config : EnhancedQuoterConfig) (orderSizeUsd makerFeeBps : ℚ) :
    EnhancedQuoter :=
  { tickSize := 1 / 10 ^ priceDecimals
    lotSize := 1 / 10 ^ sizeDecimals
    minSpreadBps := 2 * makerFeeBps
    config := config
    orderSizeUsd := orderSizeUsd }

/-- `clamp(value, min, max) = Math.max(min, Math.min(max, value))`. -/
def clamp (value lo hi : ℚ) : ℚ := max lo (min hi value)

/-- `alignPrice` with `round = "floor"`: `(price / tick).floor() * tick`. -/
def alignPriceFloor (tick price : ℚ) : ℚ := (⌊price / tick⌋ : ℚ) * tick

/-- `alignPrice` with `round = "ceil"`: `(price / tick).ceil() * tick`. -/
def alignPriceCeil (tick price : ℚ) : ℚ := (⌈price / tick⌉ : ℚ) * tick

/-- `alignSize`: `(size / lot).floor() * lot`. -/
def alignSize (lot size : ℚ) : ℚ := (⌊size / lot⌋ : ℚ) * lot

/-- `usdToSize`: `alignSize(usd / fairPrice)`. -/
def usdToSize (lot usd fairPrice : ℚ) : ℚ := alignSize lot (usd / fairPrice)

/-- `getLevelWeights`: `[1.0]`, `[0.65, 0.35]`, else `[0.55, 0.30, 0.15]`. -/
def getLevelWeights : ℕ → List ℚ
  | 1 => [1]
  | 2 => [13/20, 7/20]
  | _ => [11/20, 3/10, 3/20]

/-- The BBO clamp on a bid price (source lines: `if (bbo && bidPrice.gte
(bbo.bestAsk)) bidPrice = alignPrice(bestAsk - tickSize, "floor")`). -/
def clampBidToBbo (tick : ℚ) (bbo : Option BBO) (bidPrice : ℚ) : ℚ :=
  match bbo with
  | some b => if b.bestAsk ≤ bidPrice then alignPriceFloor tick (b.bestAsk - tick) else bidPrice
  | none => bidPrice

/-- The BBO clamp on an ask price (`if (bbo && askPrice.lte(bbo.bestBid))
askPrice = alignPrice(bestBid + tickSize, "ceil")`). -/
def clampAskToBbo (tick : ℚ) (bbo : Option BBO) (askPrice : ℚ) : ℚ :=
  match bbo with
  | some b => if askPrice ≤ b.bestBid then alignPriceCeil tick (b.bestBid + tick) else askPrice
  | none => askPrice

/-- The bid orders pushed for one level of the quote loop. -/
def bidLevelQuotes (tick lot : ℚ) (bbo : Option BBO)
    (skewedMid bidSpreadBps baseSize bidSizeMult levelSpacingBps : ℚ)
    (levelWeights : List ℚ) (level : ℕ) : List Quote :=
  if 0 < bidSizeMult then
    let levelOffset := (level : ℚ) * levelSpacingBps
    let levelWeight := levelWeights.getD level 0
    let totalBidBps := bidSpreadBps + levelOffset
    let bidSpread := skewedMid * totalBidBps / 10000
    let bidPrice := clampBidToBbo tick bbo (alignPriceFloor tick (skewedMid - bidSpread))
    if 0 < bidPrice then
      let bidSize := alignSize lot (baseSize * (bidSizeMult * levelWeight))
      if 0 < bidSize then [⟨QuoteSide.bid, bidPrice, bidSize⟩] else []
    else []
  else []

/-- The ask orders pushed for one level of the quote loop. -/
def askLevelQuotes (tick lot : ℚ) (bbo : Option BBO)
    (skewedMid askSpreadBps baseSize askSizeMult levelSpacingBps : ℚ)
    (levelWeights : List ℚ) (level : ℕ) : List Quote :=
  if 0 < askSizeMult then
    let levelOffset := (level : ℚ) * levelSpacingBps
    let levelWeight := levelWeights.getD level 0
    let totalAskBps := askSpreadBps + levelOffset
    let askSpread := skewedMid * totalAskBps / 10000
    let askPrice := clampAskToBbo tick bbo (alignPriceCeil tick (skewedMid + askSpread))
    if 0 < askPrice then
      let askSize := alignSize lot (baseSize * (askSizeMult * levelWeight))
      if 0 < askSize then [⟨QuoteSide.ask, askPrice, askSize⟩] else []
    else []
  else []

/-- `EnhancedQuoter.getQuotes`, translated statement by statement.
The local `positionRatio` of the source is called `positionFraction`
here (names ending like the original are awkward in this development);
`vol` is the source's `volatilityBps ?? baseSpreadBps` fallback — the
source applies no `minSkewBps` floor and no `closeThresholdUsd` cap. -/
def EnhancedQuoter.getQuotes (p : EnhancedQuoter)
    (ctx : EnhancedQuotingContext) (bbo : Option BBO) : List Quote :=
  let fair := ctx.fairPrice
  let positionFraction := clamp (ctx.positionUsd / p.config.maxPositionUsd) (-1) 1
  let vol := ctx.volatilityBps.getD p.config.baseSpreadBps
  let skewBps := p.config.skewFactor * positionFraction * vol
  let skewAmount := fair * skewBps / 10000
  let skewedMid := fair - skewAmount
  let spreadBps0 := p.config.baseSpreadBps + p.config.volMultiplier * vol
  let floorBps := max p.config.baseSpreadBps p.minSpreadBps
  let spreadBps := clamp spreadBps0 floorBps p.config.maxSpreadBps
  let absMomentum := |ctx.momentumBps|
  let momentumPenalty :=
    if 3/2 < absMomentum then p.config.momentumPenaltyBps * (absMomentum / 5) else 0
  let bidSpreadBps := spreadBps + (if 3/2 < ctx.momentumBps then momentumPenalty else 0)
  let askSpreadBps := spreadBps + (if ctx.momentumBps < -(3/2) then momentumPenalty else 0)
  let absPositionFraction := |positionFraction|
  let isLong := 0 < ctx.positionUsd
  let baseSize := usdToSize p.lotSize p.orderSizeUsd fair
  if baseSize ≤ 0 then []
  else
    let mults :=
      if p.config.sizeReductionStart < absPositionFraction then
        let reductionRange := 1 - p.config.sizeReductionStart
        let reductionPct :=
          min 1 ((absPositionFraction - p.config.sizeReductionStart) / reductionRange)
        if isLong then (max 0 (1 - reductionPct * (4/5)), 1 + reductionPct * (3/10))
        else (1 + reductionPct * (3/10), max 0 (1 - reductionPct * (4/5)))
      else ((1 : ℚ), (1 : ℚ))
    let mults :=
      if 9/10 < absPositionFraction then
        if isLong then ((0 : ℚ), mults.2) else (mults.1, (0 : ℚ))
      else mults
    let levelWeights := getLevelWeights p.config.levels
    (List.range p.config.levels).flatMap fun level =>
      bidLevelQuotes p.tickSize p.lotSize bbo skewedMid bidSpreadBps baseSize
          mults.1 p.config.levelSpacingBps levelWeights level ++
        askLevelQuotes p.tickSize p.lotSize bbo skewedMid askSpreadBps baseSize
          mults.2 p.config.levelSpacingBps levelWeights level

/-- The `ENHANCED_STRATEGY.quoter` preset from configs.ts (the fields the
source interface declares; the preset's extra `minSkewBps = 3` and
`closeThresholdUsd = 60` entries have no corresponding interface field
and are never read by the quoter). -/
def enhancedStrategyQuoterConfig : EnhancedQuoterConfig :=
  { baseSpreadBps := 8
    maxSpreadBps := 15
    volMultiplier := 4/5
    skewFactor := 3
    maxPositionUsd := 75
    sizeReductionStart := 3/10
    levels := 1
    levelSpacingBps := 5
    momentumPenaltyBps := 4 }

/-- Effective volatility as the spec words it: the `volatilityBps ??
baseSpreadBps` fallback floored at `minSkewBps`.  Second definition for
comparison against the source, which applies no such floor. -/
def specVolEff (volatilityBps : Option ℚ) (baseSpreadBps minSkewBps : ℚ) : ℚ :=
  max (volatilityBps.getD baseSpreadBps) minSkewBps

/-! ## Quoter lemmas -/

theorem ceil_eq_neg_floor (x : ℚ) : ⌈x⌉ = -⌊-x⌋ := by
  rw [Int.floor_neg, neg_neg]

theorem alignPriceFloor_le {tick : ℚ} (htick : 0 < tick) (x : ℚ) :
    alignPriceFloor tick x ≤ x := by
  unfold alignPriceFloor
  have h := Int.floor_le (x / tick)
  calc (⌊x / tick⌋ : ℚ) * tick ≤ x / tick * tick :=
        mul_le_mul_of_nonneg_right h htick.le
    _ = x := div_mul_cancel₀ x htick.ne'

theorem le_alignPriceCeil {tick : ℚ} (htick : 0 < tick) (x : ℚ) :
    x ≤ alignPriceCeil tick x := by
  unfold alignPriceCeil
  have h := Int.le_ceil (x / tick)
  calc x = x / tick * tick := (div_mul_cancel₀ x htick.ne').symm
    _ ≤ (⌈x / tick⌉ : ℚ) * tick := mul_le_mul_of_nonneg_right h htick.le

theorem clampBidToBbo_lt_bestAsk {tick : ℚ} (htick : 0 < tick) (b : BBO) (x : ℚ) :
    clampBidToBbo tick (some b) x < b.bestAsk := by
  simp only [clampBidToBbo]
  split_ifs with h
  · have h2 := alignPriceFloor_le htick (b.bestAsk - tick)
    linarith
  · exact not_le.mp h

theorem bestBid_lt_clampAskToBbo {tick : ℚ} (htick : 0 < tick) (b : BBO) (x : ℚ) :
    b.bestBid < clampAskToBbo tick (some b) x := by
  simp only [clampAskToBbo]
  split_ifs with h
  · have h2 := le_alignPriceCeil htick (b.bestBid + tick)
    linarith
  · exact not_le.mp h

theorem mem_bidLevelQuotes {tick lot : ℚ} (htick : 0 < tick) {b : BBO}
    {skewedMid bidSpreadBps baseSize bidSizeMult levelSpacingBps : ℚ}
    {levelWeights : List ℚ} {level : ℕ} {q : Quote}
    (hq : q ∈ bidLevelQuotes tick lot (some b) skewedMid bidSpreadBps baseSize
      bidSizeMult levelSpacingBps levelWeights level) :
    q.side = QuoteSide.bid ∧ q.price < b.bestAsk := by
  simp only [bidLevelQuotes] at hq
  split at hq
  · split at hq
    · split at hq
      · rcases List.mem_singleton.mp hq with rfl
        exact ⟨rfl, clampBidToBbo_lt_bestAsk htick b _⟩
      · cases hq
    · cases hq
  · cases hq

theorem mem_askLevelQuotes {tick lot : ℚ} (htick : 0 < tick) {b : BBO}
    {skewedMid askSpreadBps baseSize askSizeMult levelSpacingBps : ℚ}
    {levelWeights : List ℚ} {level : ℕ} {q : Quote}
    (hq : q ∈ askLevelQuotes tick lot (some b) skewedMid askSpreadBps baseSize
      askSizeMult levelSpacingBps levelWeights level) :
    q.side = QuoteSide.ask ∧ b.bestBid < q.price := by
  simp only [askLevelQuotes] at hq
  split at hq
  · split at hq
    · split at hq
      · rcases List.mem_singleton.mp hq with rfl
        exact ⟨rfl, bestBid_lt_clampAskToBbo htick b _⟩
      · cases hq
    · cases hq
  · cases hq

/-! ## Claim theorems about the quoter -/

/-- Claim C2 (code bug evidence): with the `ENHANCED_STRATEGY` quoter
preset (`closeThresholdUsd = 60` documented as "Hard cap: stop adding side
entirely above $60"), a long position of exactly $60 — at the threshold —
still gets a bid quote: `getQuotes` emits a bid of 0.064 at $99.66.  The
source never reads `closeThresholdUsd` (the interface does not declare
it), so the documented hard cap is absent. -/
theorem closeThreshold_hard_cap_missing :
    (EnhancedQuoter.make 2 3 enhancedStrategyQuoterConfig 15 1).getQuotes
        ⟨100, 60, 3/5, none, 0⟩ none =
      [⟨QuoteSide.bid, 4983/50, 8/125⟩, ⟨QuoteSide.ask, 2499/25, 91/500⟩] ∧
    (60 : ℚ) ≤ 60 := by
  constructor
  · norm_num [EnhancedQuoter.getQuotes, EnhancedQuoter.make, enhancedStrategyQuoterConfig,
      bidLevelQuotes, askLevelQuotes, clampBidToBbo, clampAskToBbo, alignPriceFloor,
      alignPriceCeil, alignSize, usdToSize, clamp, getLevelWeights, ceil_eq_neg_floor,
      List.range_succ, abs_of_pos, abs_of_nonneg, min_def, max_def]
  · exact le_refl 60

/-- Claim C6 (code bug evidence): with the `ENHANCED_STRATEGY` quoter
preset (`minSkewBps = 3` documented as "Floor: skew acts as if vol >=
3bps even in calm markets"), volatility 1 bps and a $22.50 long
(position ratio 0.3, fair $100, tick 10⁻⁶): the code skews by
`skewFactor·ratio·vol = 0.9` bps, not the claimed
`skewFactor·ratio·max(vol, minSkew) = 2.7` bps, so the emitted bid is
$99.903007 instead of the $99.885023 the floored skew would give. -/
theorem minSkew_floor_missing :
    (EnhancedQuoter.make 6 3 enhancedStrategyQuoterConfig 15 1).getQuotes
        ⟨100, 45/2, 9/40, some 1, 0⟩ none =
      [⟨QuoteSide.bid, 99903007/1000000, 3/20⟩,
        ⟨QuoteSide.ask, 100078993/1000000, 3/20⟩] ∧
    enhancedStrategyQuoterConfig.skewFactor * clamp ((45/2) / 75) (-1) 1 *
        (Option.getD (some 1) enhancedStrategyQuoterConfig.baseSpreadBps) = 9/10 ∧
    enhancedStrategyQuoterConfig.skewFactor * clamp ((45/2) / 75) (-1) 1 *
        specVolEff (some 1) enhancedStrategyQuoterConfig.baseSpreadBps 3 = 27/10 ∧
    alignPriceFloor (1/10^6)
        (99973/1000 - (99973/1000) * (44/5) / 10000) ≠ (99903007/1000000 : ℚ) := by
  refine ⟨?_, ?_, ?_, ?_⟩
  · norm_num [EnhancedQuoter.getQuotes, EnhancedQuoter.make, enhancedStrategyQuoterConfig,
      bidLevelQuotes, askLevelQuotes, clampBidToBbo, clampAskToBbo, alignPriceFloor,
      alignPriceCeil, alignSize, usdToSize, clamp, getLevelWeights, ceil_eq_neg_floor,
      List.range_succ, abs_of_pos, abs_of_nonneg, min_def, max_def]
  · norm_num [enhancedStrategyQuoterConfig, clamp, min_def, max_def]
  · norm_num [enhancedStrategyQuoterConfig, specVolEff, clamp, min_def, max_def]
  · norm_num [alignPriceFloor]

/-- Claim C7: every quote the enhanced quoter emits when a BBO is
available never crosses the book — each bid is strictly below the best
ask and each ask strictly above the best bid, after the BBO clamp. -/
theorem enhancedQuoter_never_crosses (priceDecimals sizeDecimals : ℕ)
    (config : EnhancedQuoterConfig) (orderSizeUsd makerFeeBps : ℚ)
    (ctx : EnhancedQuotingContext) (b : BBO) (q : Quote)
    (hq : q ∈ (EnhancedQuoter.make priceDecimals sizeDecimals config
      orderSizeUsd makerFeeBps).getQuotes ctx (some b)) :
    (q.side = QuoteSide.bid → q.price < b.bestAsk) ∧
      (q.side = QuoteSide.ask → b.bestBid < q.price) := by
  have htick : (0 : ℚ) < (EnhancedQuoter.make priceDecimals sizeDecimals config
      orderSizeUsd makerFeeBps).tickSize := by
    simp only [EnhancedQuoter.make]
    positivity
  simp only [EnhancedQuoter.getQuotes] at hq
  split at hq
  · cases hq
  · rcases List.mem_flatMap.mp hq with ⟨level, -, hmem⟩
    rcases List.mem_append.mp hmem with hbid | hask
    · obtain ⟨hside, hlt⟩ := mem_bidLevelQuotes htick hbid
      refine ⟨fun _ => hlt, fun hask' => ?_⟩
      rw [hside] at hask'
      cases hask'
    · obtain ⟨hside, hlt⟩ := mem_askLevelQuotes htick hask
      refine ⟨fun hbid' => ?_, fun _ => hlt⟩
      rw [hside] at hbid'
      cases hbid'

/-- Witness for C7: at a concrete context with BBO (99, 101) the quoter
emits the bid $99.903007, and the theorem yields that it is below the
best ask 101. -/
theorem enhancedQuoter_never_crosses_witness :
    (⟨QuoteSide.bid, 99903007/1000000, 3/20⟩ : Quote) ∈
        (EnhancedQuoter.make 6 3 enhancedStrategyQuoterConfig 15 1).getQuotes
          ⟨100, 45/2, 9/40, some 1, 0⟩ (some ⟨99, 101⟩) ∧
      (99903007/1000000 : ℚ) < 101 := by
  have hmem : (⟨QuoteSide.bid, 99903007/1000000, 3/20⟩ : Quote) ∈
      (EnhancedQuoter.make 6 3 enhancedStrategyQuoterConfig 15 1).getQuotes
        ⟨100, 45/2, 9/40, some 1, 0⟩ (some ⟨99, 101⟩) := by
    have hev : (EnhancedQuoter.make 6 3 enhancedStrategyQuoterConfig 15 1).getQuotes
        ⟨100, 45/2, 9/40, some 1, 0⟩ (some ⟨99, 101⟩) =
        [⟨QuoteSide.bid, 99903007/1000000, 3/20⟩,
          ⟨QuoteSide.ask, 100078993/1000000, 3/20⟩] := by
      norm_num [EnhancedQuoter.getQuotes, EnhancedQuoter.make, enhancedStrategyQuoterConfig,
        bidLevelQuotes, askLevelQuotes, clampBidToBbo, clampAskToBbo, alignPriceFloor,
        alignPriceCeil, alignSize, usdToSize, clamp, getLevelWeights, ceil_eq_neg_floor,
        List.range_succ, abs_of_pos, abs_of_nonneg, min_def, max_def]
    rw [hev]
    exact List.mem_cons_self _ _
  exact ⟨hmem, (enhancedQuoter_never_crosses 6 3 enhancedStrategyQuoterConfig 15 1
    ⟨100, 45/2, 9/40, some 1, 0⟩ ⟨99, 101⟩ _ hmem).1 rfl⟩

/-! ## PnL tracker (src/analytics/pnl-tracker.ts)

The tracker reads the wall clock only through `todayUtc()`; every
operation below therefore takes the current UTC date string `today` as a
parameter.  The three `haltReason` strings the source ever stores
("Max drawdown breached: ...", "Max position breached: ...",
"Daily loss limit: ...") are embedded as an inductive; the rollover
test `haltReason?.includes("Daily loss limit")` holds exactly for the
third one. -/

/-- Risk limits (`RiskConfig` in configs.ts). -/
structure RiskConfig where
  maxDrawdownUsd : ℚ
  maxPositionUsd : ℚ
  dailyLossLimitUsd : ℚ
  accountSizeUsd : ℚ
deriving Repr

/-- The halt reasons the tracker can store. -/
inductive HaltReason where
  | maxDrawdown
  | maxPosition
  | dailyLoss
deriving DecidableEq, Repr

/-- Fill side as `applyFill` receives it. -/
inductive FillSide where
  | buy
  | sell
deriving DecidableEq, Repr

/-- The `PnlTracker` private fields. -/
structure PnlTracker where
  positionBase : ℚ
  costBasis : ℚ
  realizedPnl : ℚ
  peakPnl : ℚ
  dailyPnl : ℚ
  dailyStartDate : String
  tradeCount : ℕ
  buyCount : ℕ
  sellCount : ℕ
  volumeUsd : ℚ
  winCount : ℕ
  lossCount : ℕ
  shouldHalt : Bool
  haltReason : Option HaltReason
deriving Repr

/-- The `PnlState` record returned by `getState`. -/
structure PnlState where
  positionBase : ℚ
  avgEntryPrice : ℚ
  costBasis : ℚ
  realizedPnl : ℚ
  unrealizedPnl : ℚ
  totalPnl : ℚ
  peakPnl : ℚ
  drawdown : ℚ
  dailyPnl : ℚ
  dailyStartDate : String
  tradeCount : ℕ
  buyCount : ℕ
  sellCount : ℕ
  volumeUsd : ℚ
  winCount : ℕ
  lossCount : ℕ
  shouldHalt : Bool
  haltReason : Option HaltReason
deriving Repr

/-- A fresh tracker as built by the constructor on date `today`. -/
def PnlTracker.init (today : String) : PnlTracker :=
  { positionBase := 0, costBasis := 0, realizedPnl := 0, peakPnl := 0
    dailyPnl := 0, dailyStartDate := today, tradeCount := 0, buyCount := 0
    sellCount := 0, volumeUsd := 0, winCount := 0, lossCount := 0
    shouldHalt := false, haltReason := none }

/-- `initPosition`: seed with a pre-existing venue position. -/
def PnlTracker.initPosition (positionBase entryPrice : ℚ) (t : PnlTracker) :
    PnlTracker :=
  { t with positionBase := positionBase, costBasis := |positionBase| * entryPrice }

/-- `getAvgEntryPrice`: `costBasis / |positionBase|`, or 0 when
`|positionBase| < 1e-10`. -/
def PnlTracker.getAvgEntryPrice (t : PnlTracker) : ℚ :=
  if |t.positionBase| < 1/10^10 then 0 else t.costBasis / |t.positionBase|

/-- `calcUnrealizedPnl` at a fair price. -/
def PnlTracker.calcUnrealizedPnl (t : PnlTracker) (fairPrice : ℚ) : ℚ :=
  if |t.positionBase| < 1/10^10 then 0
  else if 0 < t.positionBase then t.positionBase * (fairPrice - t.getAvgEntryPrice)
  else |t.positionBase| * (t.getAvgEntryPrice - fairPrice)

/-- `checkRiskLimits`: updates the peak and sets the halt flag on a
drawdown, position, or daily-loss breach; never clears the flag. -/
def PnlTracker.checkRiskLimits (risk : RiskConfig) (currentPrice : ℚ)
    (t : PnlTracker) : PnlTracker :=
  let unrealized := t.calcUnrealizedPnl currentPrice
  let totalPnl := t.realizedPnl + unrealized
  let t := if t.peakPnl < totalPnl then { t with peakPnl := totalPnl } else t
  let drawdown := max 0 (t.peakPnl - totalPnl)
  if risk.maxDrawdownUsd ≤ drawdown then
    { t with shouldHalt := true, haltReason := some HaltReason.maxDrawdown }
  else
    let posUsd := |t.positionBase * currentPrice|
    if risk.maxPositionUsd ≤ posUsd then
      { t with shouldHalt := true, haltReason := some HaltReason.maxPosition }
    else
      let dailyTotal := t.dailyPnl + unrealized
      if dailyTotal ≤ -risk.dailyLossLimitUsd then
        { t with shouldHalt := true, haltReason := some HaltReason.dailyLoss }
      else t

/-- `checkDayRollover`: on a UTC date change, zero `dailyPnl`, adopt the
new date, and clear the halt exactly when its reason was the daily loss
limit. -/
def PnlTracker.checkDayRollover (today : String) (t : PnlTracker) : PnlTracker :=
  if today ≠ t.dailyStartDate then
    let t := { t with dailyPnl := 0, dailyStartDate := today }
    if t.haltReason = some HaltReason.dailyLoss then
      { t with shouldHalt := false, haltReason := none }
    else t
  else t

/-- The body of `applyFill` after its opening `this.checkDayRollover()`
statement (split out so the fill arithmetic can be reasoned about
separately from the rollover). -/
def PnlTracker.applyFillBody (risk : RiskConfig) (side : FillSide)
    (price size : ℚ) (t : PnlTracker) : PnlTracker × ℚ :=
  let sizeUsd := size * price
  let t := { t with tradeCount := t.tradeCount + 1, volumeUsd := t.volumeUsd + sizeUsd }
  let t := match side with
    | FillSide.buy => { t with buyCount := t.buyCount + 1 }
    | FillSide.sell => { t with sellCount := t.sellCount + 1 }
  let isOpening := (side = FillSide.buy ∧ 0 ≤ t.positionBase) ∨
    (side = FillSide.sell ∧ t.positionBase ≤ 0)
  if isOpening then
    let t := match side with
      | FillSide.buy =>
        { t with costBasis := t.costBasis + size * price
                 positionBase := t.positionBase + size }
      | FillSide.sell =>
        { t with costBasis := t.costBasis + size * price
                 positionBase := t.positionBase - size }
    (t.checkRiskLimits risk price, 0)
  else
    let avgEntry := t.getAvgEntryPrice
    let closingSize := min size |t.positionBase|
    let remainingSize := size - closingSize
    let step :=
      if 0 < t.positionBase then
        ({ t with positionBase := t.positionBase - closingSize
                  costBasis := |t.positionBase - closingSize| * avgEntry },
          closingSize * (price - avgEntry))
      else
        ({ t with positionBase := t.positionBase + closingSize
                  costBasis := |t.positionBase + closingSize| * avgEntry },
          closingSize * (avgEntry - price))
    let t := step.1
    let fillRealizedPnl := step.2
    let t :=
      if 0 < remainingSize then
        match side with
        | FillSide.buy =>
          { t with positionBase := t.positionBase + remainingSize
                   costBasis := |t.positionBase + remainingSize| * price }
        | FillSide.sell =>
          { t with positionBase := t.positionBase - remainingSize
                   costBasis := |t.positionBase - remainingSize| * price }
      else t
    let t := { t with realizedPnl := t.realizedPnl + fillRealizedPnl
                      dailyPnl := t.dailyPnl + fillRealizedPnl }
    let t :=
      if 0 < fillRealizedPnl then { t with winCount := t.winCount + 1 }
      else if fillRealizedPnl < 0 then { t with lossCount := t.lossCount + 1 }
      else t
    (t.checkRiskLimits risk price, fillRealizedPnl)

/-- `applyFill`: roll the day over if needed, then process the fill,
returning the new tracker state and the realized PnL from this fill. -/
def PnlTracker.applyFill (risk : RiskConfig) (today : String) (side : FillSide)
    (price size : ℚ) (t : PnlTracker) : PnlTracker × ℚ :=
  (t.checkDayRollover today).applyFillBody risk side price size

/-- `getState`: roll the day over if needed, mark to market, ratchet the
peak, and report drawdown `max(0, peak - total)`. -/
def PnlTracker.getState (today : String) (fairPrice : ℚ) (t : PnlTracker) :
    PnlTracker × PnlState :=
  let t := t.checkDayRollover today
  let unrealizedPnl := t.calcUnrealizedPnl fairPrice
  let totalPnl := t.realizedPnl + unrealizedPnl
  let t := if t.peakPnl < totalPnl then { t with peakPnl := totalPnl } else t
  let drawdown := max 0 (t.peakPnl - totalPnl)
  (t,
    { positionBase := t.positionBase
      avgEntryPrice := t.getAvgEntryPrice
      costBasis := t.costBasis
      realizedPnl := t.realizedPnl
      unrealizedPnl := unrealizedPnl
      totalPnl := totalPnl
      peakPnl := t.peakPnl
      drawdown := drawdown
      dailyPnl := t.dailyPnl + unrealizedPnl
      dailyStartDate := t.dailyStartDate
      tradeCount := t.tradeCount
      buyCount := t.buyCount
      sellCount := t.sellCount
      volumeUsd := t.volumeUsd
      winCount := t.winCount
      lossCount := t.lossCount
      shouldHalt := t.shouldHalt
      haltReason := t.haltReason })

/-- `syncPosition`: adopt the server position when drift exceeds 1e-4. -/
def PnlTracker.syncPosition (serverPositionBase fairPrice : ℚ) (t : PnlTracker) :
    PnlTracker :=
  if 1/10^4 < |t.positionBase - serverPositionBase| then
    { t with positionBase := serverPositionBase
             costBasis := |serverPositionBase| * fairPrice }
  else t

/-- `resetHalt`: manual clear. -/
def PnlTracker.resetHalt (t : PnlTracker) : PnlTracker :=
  { t with shouldHalt := false, haltReason := none }

/-- `SMALL_ACCOUNT_RISK` from configs.ts. -/
def smallAccountRisk : RiskConfig :=
  { maxDrawdownUsd := 5, maxPositionUsd := 75, dailyLossLimitUsd := 3
    accountSizeUsd := 50 }

/-! ## PnL tracker lemmas -/

theorem checkDayRollover_positionBase (today : String) (t : PnlTracker) :
    (t.checkDayRollover today).positionBase = t.positionBase := by
  unfold PnlTracker.checkDayRollover
  dsimp only
  split_ifs <;> rfl

theorem checkDayRollover_costBasis (today : String) (t : PnlTracker) :
    (t.checkDayRollover today).costBasis = t.costBasis := by
  unfold PnlTracker.checkDayRollover
  dsimp only
  split_ifs <;> rfl

theorem checkDayRollover_realizedPnl (today : String) (t : PnlTracker) :
    (t.checkDayRollover today).realizedPnl = t.realizedPnl := by
  unfold PnlTracker.checkDayRollover
  dsimp only
  split_ifs <;> rfl

theorem checkDayRollover_peakPnl (today : String) (t : PnlTracker) :
    (t.checkDayRollover today).peakPnl = t.peakPnl := by
  unfold PnlTracker.checkDayRollover
  dsimp only
  split_ifs <;> rfl

theorem checkDayRollover_getAvgEntryPrice (today : String) (t : PnlTracker) :
    (t.checkDayRollover today).getAvgEntryPrice = t.getAvgEntryPrice := by
  unfold PnlTracker.getAvgEntryPrice
  rw [checkDayRollover_positionBase, checkDayRollover_costBasis]

theorem checkDayRollover_calcUnrealizedPnl (today : String) (t : PnlTracker)
    (fairPrice : ℚ) :
    (t.checkDayRollover today).calcUnrealizedPnl fairPrice =
      t.calcUnrealizedPnl fairPrice := by
  unfold PnlTracker.calcUnrealizedPnl
  rw [checkDayRollover_positionBase, checkDayRollover_getAvgEntryPrice]

theorem checkRiskLimits_positionBase (risk : RiskConfig) (price : ℚ)
    (t : PnlTracker) :
    (t.checkRiskLimits risk price).positionBase = t.positionBase := by
  unfold PnlTracker.checkRiskLimits
  dsimp only
  split_ifs <;> rfl

theorem checkRiskLimits_costBasis (risk : RiskConfig) (price : ℚ)
    (t : PnlTracker) :
    (t.checkRiskLimits risk price).costBasis = t.costBasis := by
  unfold PnlTracker.checkRiskLimits
  dsimp only
  split_ifs <;> rfl

theorem getState_fst_peakPnl (today : String) (fairPrice : ℚ) (t : PnlTracker) :
    ((t.getState today fairPrice).1).peakPnl =
      max t.peakPnl (t.realizedPnl + t.calcUnrealizedPnl fairPrice) := by
  unfold PnlTracker.getState
  simp only [checkDayRollover_calcUnrealizedPnl, checkDayRollover_realizedPnl]
  split_ifs with h
  · simp only [checkDayRollover_peakPnl] at h ⊢
    exact (max_eq_right h.le).symm
  · simp only [checkDayRollover_peakPnl] at h ⊢
    exact (max_eq_left (not_lt.mp h)).symm

theorem peakPnl_le_getState (today : String) (fairPrice : ℚ) (t : PnlTracker) :
    t.peakPnl ≤ ((t.getState today fairPrice).1).peakPnl := by
  rw [getState_fst_peakPnl]
  exact le_max_left _ _

theorem peakPnl_le_foldl_getState (calls : List (String × ℚ)) (t : PnlTracker) :
    t.peakPnl ≤
      (calls.foldl (fun s c => (s.getState c.1 c.2).1) t).peakPnl := by
  induction calls generalizing t with
  | nil => exact le_refl _
  | cons c rest ih =>
    exact le_trans (peakPnl_le_getState c.1 c.2 t) (ih _)

/-! ## Claim theorems about the PnL tracker -/

/-- Claim C3: after every `getState(fair)` call, the peak is at least
`realized + unrealized(fair)`; the peak never decreases across any
sequence of `getState` calls; and the reported drawdown equals
`max(0, peak - total)`, hence is never negative. -/
theorem pnl_peak_drawdown_invariants (today : String) (fairPrice : ℚ)
    (t : PnlTracker) :
    (t.realizedPnl + t.calcUnrealizedPnl fairPrice ≤
        ((t.getState today fairPrice).1).peakPnl) ∧
      t.peakPnl ≤ ((t.getState today fairPrice).1).peakPnl ∧
      ((t.getState today fairPrice).2).peakPnl =
        ((t.getState today fairPrice).1).peakPnl ∧
      ((t.getState today fairPrice).2).drawdown =
        max 0 (((t.getState today fairPrice).2).peakPnl -
          ((t.getState today fairPrice).2).totalPnl) ∧
      0 ≤ ((t.getState today fairPrice).2).drawdown ∧
      ∀ calls : List (String × ℚ),
        t.peakPnl ≤
          (calls.foldl (fun s c => (s.getState c.1 c.2).1) t).peakPnl := by
  refine ⟨?_, peakPnl_le_getState today fairPrice t, ?_, ?_, ?_,
    fun calls => peakPnl_le_foldl_getState calls t⟩
  · rw [getState_fst_peakPnl]
    exact le_max_right _ _
  · unfold PnlTracker.getState
    dsimp only
  · unfold PnlTracker.getState
    dsimp only
  · unfold PnlTracker.getState
    dsimp only
    exact le_max_left _ _

theorem checkRiskLimits_shouldHalt (risk : RiskConfig) (price : ℚ)
    (t : PnlTracker) (h : t.shouldHalt = true) :
    (t.checkRiskLimits risk price).shouldHalt = true := by
  unfold PnlTracker.checkRiskLimits
  dsimp only
  split_ifs <;> simp_all

theorem checkDayRollover_shouldHalt (today : String) (t : PnlTracker)
    (h : t.shouldHalt = true)
    (hcond : today = t.dailyStartDate ∨ t.haltReason ≠ some HaltReason.dailyLoss) :
    (t.checkDayRollover today).shouldHalt = true := by
  unfold PnlTracker.checkDayRollover
  dsimp only
  split_ifs with h1 h2
  · rcases hcond with hc | hc
    · exact absurd hc h1
    · exact absurd h2 hc
  · exact h
  · exact h

/-- Claim C4: a halt is sticky — `applyFill`, `getState`, `initPosition`
and `syncPosition` keep `shouldHalt = true` whenever no UTC date change
occurs or the stored reason is not the daily loss limit; a manual
`resetHalt` always clears the halt; and on a date change the rollover
clears it exactly when the reason was the daily loss limit. -/
theorem halt_sticky (risk : RiskConfig) (t : PnlTracker) (today : String)
    (side : FillSide) (price size fairPrice serverPos entryPrice pos : ℚ)
    (h : t.shouldHalt = true) :
    (t.resetHalt.shouldHalt = false ∧ t.resetHalt.haltReason = none) ∧
      (today ≠ t.dailyStartDate →
        ((t.checkDayRollover today).shouldHalt = false ↔
          t.haltReason = some HaltReason.dailyLoss)) ∧
      ((today = t.dailyStartDate ∨ t.haltReason ≠ some HaltReason.dailyLoss) →
        ((t.applyFill risk today side price size).1.shouldHalt = true ∧
          ((t.getState today fairPrice).1).shouldHalt = true)) ∧
      (t.initPosition pos entryPrice).shouldHalt = true ∧
      (t.syncPosition serverPos fairPrice).shouldHalt = true := by
  refine ⟨⟨rfl, rfl⟩, ?_, ?_, h, ?_⟩
  · intro hday
    unfold PnlTracker.checkDayRollover
    rw [if_pos hday]
    dsimp only
    split_ifs with h2
    · simp [h2]
    · simp [h, h2]
  · intro hcond
    have hroll := checkDayRollover_shouldHalt today t h hcond
    constructor
    · cases side <;>
        · unfold PnlTracker.applyFill PnlTracker.applyFillBody
          dsimp only
          split_ifs <;> exact checkRiskLimits_shouldHalt _ _ _ hroll
    · unfold PnlTracker.getState
      dsimp only
      split_ifs <;> exact hroll
  · unfold PnlTracker.syncPosition
    split_ifs <;> exact h

/-- Witness for C4: a tracker halted for max drawdown stays halted
through a fill and a `getState` on the same day, and rollover to the
next day does not clear it; `resetHalt` does. -/
theorem halt_sticky_witness :
    ({ PnlTracker.init "2024-01-01" with
        shouldHalt := true
        haltReason := some HaltReason.maxDrawdown } : PnlTracker).shouldHalt
        = true ∧
      (({ PnlTracker.init "2024-01-01" with
          shouldHalt := true
          haltReason := some HaltReason.maxDrawdown } : PnlTracker).applyFill
          smallAccountRisk "2024-01-01" FillSide.buy 100 (1/10)).1.shouldHalt
        = true := by
  have h := halt_sticky smallAccountRisk
    ({ PnlTracker.init "2024-01-01" with
        shouldHalt := true
        haltReason := some HaltReason.maxDrawdown } : PnlTracker)
    "2024-01-01" FillSide.buy 100 (1/10) 100 0 100 0 rfl
  exact ⟨rfl, (h.2.2.1 (Or.inl rfl)).1⟩

/-- Closing-fill arithmetic of `applyFillBody` for a position of
magnitude at least 1e-10 (below that the source's `getAvgEntryPrice`
returns 0 instead of `costBasis / |position|`). -/
theorem applyFillBody_closing (risk : RiskConfig) (side : FillSide)
    (price size : ℚ) (t : PnlTracker)
    (hmin : 1/10^10 ≤ |t.positionBase|)
    (hside : (side = FillSide.sell ∧ 0 < t.positionBase) ∨
      (side = FillSide.buy ∧ t.positionBase < 0)) :
    ((t.applyFillBody risk side price size).2 =
        if 0 < t.positionBase then
          min size |t.positionBase| * (price - t.costBasis / |t.positionBase|)
        else
          min size |t.positionBase| * (t.costBasis / |t.positionBase| - price)) ∧
      (t.applyFillBody risk side price size).1.positionBase =
        (if side = FillSide.buy then t.positionBase + size
          else t.positionBase - size) ∧
      (size ≤ |t.positionBase| →
        |(t.applyFillBody risk side price size).1.positionBase| =
            |t.positionBase| - min size |t.positionBase| ∧
          (0 < t.positionBase →
            0 ≤ (t.applyFillBody risk side price size).1.positionBase) ∧
          (t.positionBase < 0 →
            (t.applyFillBody risk side price size).1.positionBase ≤ 0)) ∧
      (|t.positionBase| < size →
        |(t.applyFillBody risk side price size).1.positionBase| =
            size - min size |t.positionBase| ∧
          (t.applyFillBody risk side price size).1.costBasis =
            (size - min size |t.positionBase|) * price ∧
          (side = FillSide.sell →
            (t.applyFillBody risk side price size).1.positionBase < 0) ∧
          (side = FillSide.buy →
            0 < (t.applyFillBody risk side price size).1.positionBase)) := by
  rcases hside with ⟨rfl, hpos⟩ | ⟨rfl, hneg⟩
  · have hnotlt : ¬(|t.positionBase| < 1/10^10) := not_lt.mpr hmin
    have habs : |t.positionBase| = t.positionBase := abs_of_pos hpos
    have hopen : ¬((FillSide.sell = FillSide.buy ∧ 0 ≤ t.positionBase) ∨
        (FillSide.sell = FillSide.sell ∧ t.positionBase ≤ 0)) := by
      rintro (⟨hc, -⟩ | ⟨-, hle⟩)
      · exact FillSide.noConfusion hc
      · exact absurd hle (not_le.mpr hpos)
    unfold PnlTracker.applyFillBody PnlTracker.getAvgEntryPrice
    dsimp only
    rw [if_neg hopen]
    dsimp only
    simp only [if_neg hnotlt, if_pos hpos]
    simp only [checkRiskLimits_positionBase, checkRiskLimits_costBasis,
      apply_ite PnlTracker.positionBase, apply_ite PnlTracker.costBasis, ite_self,
      reduceCtorEq, if_true, if_false, true_implies, false_implies, true_and, and_true]
    split_ifs with hrem
    · rcases min_cases size |t.positionBase| with ⟨h1, h2⟩ | ⟨h1, h2⟩
      · rw [h1, sub_self] at hrem
        exact absurd hrem (lt_irrefl 0)
      · rw [h1, habs] at hrem ⊢
        refine ⟨by ring, fun hle => ?_, fun hlt => ?_⟩
        · rw [habs] at h2
          exact absurd hle (not_le.mpr h2)
        · have hv : t.positionBase - t.positionBase - (size - t.positionBase) =
              -(size - t.positionBase) := by ring
          rw [hv, abs_neg, abs_of_pos (by linarith)]
          exact ⟨rfl, rfl, by linarith⟩
    · have hC : min size |t.positionBase| = size := by
        rcases min_cases size |t.positionBase| with ⟨h1, h2⟩ | ⟨h1, h2⟩
        · exact h1
        · rw [h1]
          have hm := min_le_left size |t.positionBase|
          rw [h1] at hm
          linarith [not_lt.mp hrem]
      rw [hC, habs]
      refine ⟨rfl, fun hle => ?_, fun hlt => ?_⟩
      · exact ⟨abs_of_nonneg (by linarith), fun _ => by linarith,
          fun h2 => absurd h2 (by linarith)⟩
      · have hsz : size ≤ t.positionBase := by
          have hm := min_le_right size |t.positionBase|
          rw [hC, habs] at hm
          exact hm
        exact absurd hlt (not_lt.mpr hsz)
  · have hnotlt : ¬(|t.positionBase| < 1/10^10) := not_lt.mpr hmin
    have habs : |t.positionBase| = -t.positionBase := abs_of_neg hneg
    have hopen : ¬((FillSide.buy = FillSide.buy ∧ 0 ≤ t.positionBase) ∨
        (FillSide.buy = FillSide.sell ∧ t.positionBase ≤ 0)) := by
      rintro (⟨-, hle⟩ | ⟨hc, -⟩)
      · exact absurd hle (not_le.mpr hneg)
      · exact FillSide.noConfusion hc
    unfold PnlTracker.applyFillBody PnlTracker.getAvgEntryPrice
    dsimp only
    rw [if_neg hopen]
    dsimp only
    simp only [if_neg hnotlt, if_neg (lt_asymm hneg)]
    simp only [checkRiskLimits_positionBase, checkRiskLimits_costBasis,
      apply_ite PnlTracker.positionBase, apply_ite PnlTracker.costBasis, ite_self,
      reduceCtorEq, if_true, if_false, true_implies, false_implies, true_and, and_true]
    split_ifs with hrem
    · rcases min_cases size |t.positionBase| with ⟨h1, h2⟩ | ⟨h1, h2⟩
      · rw [h1, sub_self] at hrem
        exact absurd hrem (lt_irrefl 0)
      · rw [h1, habs] at hrem ⊢
        refine ⟨by ring, fun hle => ?_, fun hlt => ?_⟩
        · rw [habs] at h2
          exact absurd hle (not_le.mpr h2)
        · have hv : t.positionBase + -t.positionBase + (size - -t.positionBase) =
              size + t.positionBase := by ring
          rw [hv, abs_of_pos (by linarith)]
          exact ⟨by ring, by ring, by linarith⟩
    · have hC : min size |t.positionBase| = size := by
        rcases min_cases size |t.positionBase| with ⟨h1, h2⟩ | ⟨h1, h2⟩
        · exact h1
        · rw [h1]
          have hm := min_le_left size |t.positionBase|
          rw [h1] at hm
          linarith [not_lt.mp hrem]
      rw [hC, habs]
      refine ⟨rfl, fun hle => ?_, fun hlt => ?_⟩
      · have hv : t.positionBase + size ≤ 0 := by linarith
        rw [abs_of_nonpos hv]
        exact ⟨by ring, fun h2 => absurd h2 (lt_asymm hneg), fun _ => hv⟩
      · have hsz : size ≤ -t.positionBase := by
          have hm := min_le_right size |t.positionBase|
          rw [hC, habs] at hm
          exact hm
        exact absurd hlt (by linarith)

/-- Claim C1 (amended): for every fill whose side reduces a position of
magnitude at least 1e-10, with `avg_entry = cost_basis / |position|` and
`closing = min(size, |position|)`: the realized PnL is
`closing * (price - avg_entry)` when long and `closing * (avg_entry -
price)` when short; the signed position moves toward zero by `closing`
(ending at `position ± size`); and any remainder `size - closing > 0`
opens a new position of that magnitude in the fill's direction with
`cost_basis = (size - closing) * price`.  (The 1e-10 bound is the
amendment: the source treats smaller positions as flat when computing
the average entry.) -/
theorem applyFill_closing (risk : RiskConfig) (today : String) (side : FillSide)
    (price size : ℚ) (t : PnlTracker)
    (hmin : 1/10^10 ≤ |t.positionBase|)
    (hside : (side = FillSide.sell ∧ 0 < t.positionBase) ∨
      (side = FillSide.buy ∧ t.positionBase < 0)) :
    ((t.applyFill risk today side price size).2 =
        if 0 < t.positionBase then
          min size |t.positionBase| * (price - t.costBasis / |t.positionBase|)
        else
          min size |t.positionBase| * (t.costBasis / |t.positionBase| - price)) ∧
      (t.applyFill risk today side price size).1.positionBase =
        (if side = FillSide.buy then t.positionBase + size
          else t.positionBase - size) ∧
      (size ≤ |t.positionBase| →
        |(t.applyFill risk today side price size).1.positionBase| =
            |t.positionBase| - min size |t.positionBase| ∧
          (0 < t.positionBase →
            0 ≤ (t.applyFill risk today side price size).1.positionBase) ∧
          (t.positionBase < 0 →
            (t.applyFill risk today side price size).1.positionBase ≤ 0)) ∧
      (|t.positionBase| < size →
        |(t.applyFill risk today side price size).1.positionBase| =
            size - min size |t.positionBase| ∧
          (t.applyFill risk today side price size).1.costBasis =
            (size - min size |t.positionBase|) * price ∧
          (side = FillSide.sell →
            (t.applyFill risk today side price size).1.positionBase < 0) ∧
          (side = FillSide.buy →
            0 < (t.applyFill risk today side price size).1.positionBase)) := by
  have hmin2 : 1/10^10 ≤ |(t.checkDayRollover today).positionBase| := by
    rw [checkDayRollover_positionBase]
    exact hmin
  have hside2 : (side = FillSide.sell ∧ 0 < (t.checkDayRollover today).positionBase) ∨
      (side = FillSide.buy ∧ (t.checkDayRollover today).positionBase < 0) := by
    rw [checkDayRollover_positionBase]
    exact hside
  have h := applyFillBody_closing risk side price size (t.checkDayRollover today)
    hmin2 hside2
  rw [checkDayRollover_positionBase, checkDayRollover_costBasis] at h
  exact h

/-- Counterexample for C1 as frozen: at a position of 1e-11 (non-zero but
below the source's 1e-10 epsilon), average entry $100 (cost basis 1e-9),
a SELL of 1e-11 at $101 realizes `1e-11 * 101` (the code uses
avg_entry = 0), not the `1e-11 * (101 - 100)` the claim's
`avg_entry = cost_basis / |position|` formula prescribes. -/
theorem applyFill_closing_counterexample :
    ((((PnlTracker.init "2024-01-01").initPosition (1/10^11) 100).applyFill
        smallAccountRisk "2024-01-01" FillSide.sell 101 (1/10^11)).2 =
      101/10^11) ∧
      ¬((((PnlTracker.init "2024-01-01").initPosition (1/10^11) 100).applyFill
            smallAccountRisk "2024-01-01" FillSide.sell 101 (1/10^11)).2 =
        min (1/10^11)
            |((PnlTracker.init "2024-01-01").initPosition (1/10^11) 100).positionBase| *
          (101 -
            ((PnlTracker.init "2024-01-01").initPosition (1/10^11) 100).costBasis /
              |((PnlTracker.init "2024-01-01").initPosition (1/10^11) 100).positionBase|)) := by
  have hne : FillSide.sell ≠ FillSide.buy := fun hc => FillSide.noConfusion hc
  constructor
  · norm_num [PnlTracker.applyFill, PnlTracker.applyFillBody, PnlTracker.checkDayRollover,
      PnlTracker.getAvgEntryPrice, PnlTracker.checkRiskLimits, PnlTracker.calcUnrealizedPnl,
      PnlTracker.init, PnlTracker.initPosition, smallAccountRisk, min_def, abs_of_pos,
      abs_of_nonneg, if_neg hne]
  · norm_num [PnlTracker.applyFill, PnlTracker.applyFillBody, PnlTracker.checkDayRollover,
      PnlTracker.getAvgEntryPrice, PnlTracker.checkRiskLimits, PnlTracker.calcUnrealizedPnl,
      PnlTracker.init, PnlTracker.initPosition, smallAccountRisk, min_def, abs_of_pos,
      abs_of_nonneg, if_neg hne]

/-- Witness for C1 (scenario S2): from +0.1 at average entry $100
(cost basis $10), SELL 0.15 @ $101 realizes $0.10, leaves position
-0.05, and sets cost basis to $5.05. -/
theorem applyFill_closing_witness :
    ((((PnlTracker.init "2024-01-01").initPosition (1/10) 100).applyFill
        smallAccountRisk "2024-01-01" FillSide.sell 101 (3/20)).2 = 1/10) ∧
      ((((PnlTracker.init "2024-01-01").initPosition (1/10) 100).applyFill
          smallAccountRisk "2024-01-01" FillSide.sell 101 (3/20)).1.positionBase =
        -(1/20)) ∧
      ((((PnlTracker.init "2024-01-01").initPosition (1/10) 100).applyFill
          smallAccountRisk "2024-01-01" FillSide.sell 101 (3/20)).1.costBasis =
        101/20) := by
  have h := applyFill_closing smallAccountRisk "2024-01-01" FillSide.sell 101 (3/20)
    ((PnlTracker.init "2024-01-01").initPosition (1/10) 100)
    (by norm_num [PnlTracker.init, PnlTracker.initPosition, abs_of_pos])
    (Or.inl ⟨rfl, by norm_num [PnlTracker.init, PnlTracker.initPosition]⟩)
  obtain ⟨h1, h2, -, h4⟩ := h
  obtain ⟨-, h42, -, -⟩ := h4
    (by norm_num [PnlTracker.init, PnlTracker.initPosition, abs_of_pos])
  refine ⟨?_, ?_, ?_⟩
  · rw [h1]
    norm_num [PnlTracker.init, PnlTracker.initPosition, min_def, abs_of_pos]
  · rw [h2]
    have hne : FillSide.sell ≠ FillSide.buy := fun hc => FillSide.noConfusion hc
    norm_num [PnlTracker.init, PnlTracker.initPosition, if_neg hne]
  · rw [h42]
    norm_num [PnlTracker.init, PnlTracker.initPosition, min_def, abs_of_pos]



/-! ## Fair price calculator (src/pricing/fair-price.ts)

`Date.now()` is passed in as `now` (milliseconds).  JS `Math.floor` of a
real division is `⌊·⌋` over ℚ.  The ring buffer is modeled as the list
of stored offset samples; `Array.prototype.sort` with an ascending
comparator is modeled by an ascending stable sort. -/

/-- `SAMPLE_INTERVAL_MS = 200`. -/
def SAMPLE_INTERVAL_MS : ℤ := 200

/-- `FairPriceConfig`. -/
structure FairPriceConfig where
  windowMs : ℤ
  minSamples : ℕ
deriving Repr

/-- An `OffsetSample`. -/
structure OffsetSample where
  offset : ℚ
  slot : ℤ
deriving DecidableEq, Repr

/-- `getValidSamples`: keep samples with
`slot > Math.floor((now - windowMs) / 200)`. -/
def getValidSamples (cfg : FairPriceConfig) (samples : List OffsetSample)
    (now : ℤ) : List OffsetSample :=
  let cutoffSlot := ⌊((now : ℚ) - (cfg.windowMs : ℚ)) / (SAMPLE_INTERVAL_MS : ℚ)⌋
  samples.filter fun s => cutoffSlot < s.slot

/-- The median computation shared by `getMedianOffset` and
`getRawMedianOffset`: with `mid = ⌊length / 2⌋`, an even-length sorted
list yields `(offsets[mid-1] + offsets[mid]) / 2`, an odd-length one
`offsets[mid]`. -/
def medianOfSorted (offsets : List ℚ) : ℚ :=
  let mid := offsets.length / 2
  if offsets.length % 2 = 0 then (offsets.getD (mid - 1) 0 + offsets.getD mid 0) / 2
  else offsets.getD mid 0

/-- `getMedianOffset`: `null` when fewer than `minSamples` valid samples,
else the median of the ascending-sorted valid offsets. -/
def getMedianOffset (cfg : FairPriceConfig) (samples : List OffsetSample)
    (now : ℤ) : Option ℚ :=
  let valid := getValidSamples cfg samples now
  if valid.length < cfg.minSamples then none
  else
    some (medianOfSorted
      (List.insertionSort (fun a b => a ≤ b) (valid.map OffsetSample.offset)))

/-- `getFairPrice`: `referenceMid + medianOffset`, or `null`. -/
def getFairPrice (cfg : FairPriceConfig) (samples : List OffsetSample)
    (now : ℤ) (referenceMid : ℚ) : Option ℚ :=
  match getMedianOffset cfg samples now with
  | none => none
  | some offset => some (referenceMid + offset)

/-- Claim C5: for every reference mid `R`, `fair_price(R)` is
`R + median(valid offsets)` when at least `min_samples` samples are
valid — valid meaning `slot > now_slot - W/200` with
`now_slot = ⌊now/200⌋` — and `null` otherwise; the median of an
even-length sorted list is the mean of the two middle elements, of an
odd-length list the middle element (that is `medianOfSorted`).  The
window is a multiple of the 200 ms slot length ( the spec's `W/200`),
and `min_samples ≥ 1` keeps the median applied only to nonempty lists
(on an empty list the JS code would produce NaN, which ℚ cannot
represent). -/
theorem fairPrice_median_offset (cfg : FairPriceConfig)
    (samples : List OffsetSample) (now : ℤ) (referenceMid : ℚ)
    (hW : (200 : ℤ) ∣ cfg.windowMs) (hmin : 1 ≤ cfg.minSamples) :
    getFairPrice cfg samples now referenceMid =
      (let valid := samples.filter fun s =>
          ⌊(now : ℚ) / 200⌋ - cfg.windowMs / 200 < s.slot
       if cfg.minSamples ≤ valid.length then
         some (referenceMid + medianOfSorted
           (List.insertionSort (fun a b => a ≤ b) (valid.map OffsetSample.offset)))
       else none) := by
  obtain ⟨k, hk⟩ := hW
  have hcut : ⌊((now : ℚ) - (cfg.windowMs : ℚ)) / (SAMPLE_INTERVAL_MS : ℚ)⌋ =
      ⌊(now : ℚ) / 200⌋ - cfg.windowMs / 200 := by
    rw [hk]
    have h1 : ((now : ℚ) - ((200 * k : ℤ) : ℚ)) / (SAMPLE_INTERVAL_MS : ℚ) =
        (now : ℚ) / 200 - (k : ℚ) := by
      push_cast [SAMPLE_INTERVAL_MS]
      ring
    rw [h1, Int.floor_sub_int]
    have h2 : (200 * k : ℤ) / 200 = k := Int.mul_ediv_cancel_left k (by norm_num)
    rw [h2]
  unfold getFairPrice getMedianOffset getValidSamples
  dsimp only
  rw [hcut]
  by_cases hlen :
      (samples.filter fun s =>
        ⌊(now : ℚ) / 200⌋ - cfg.windowMs / 200 < s.slot).length < cfg.minSamples
  · rw [if_pos hlen, if_neg (not_le.mpr hlen)]
  · rw [if_neg hlen, if_pos (not_lt.mp hlen)]

/-- Witness for C5: window 1000 ms (five slots), `min_samples = 2`, and
three stored samples of which two are in-window at `now = 2300`; the
median of the sorted valid offsets `[1, 3]` is 2, and the fair price at
reference mid 100 is 102. -/
theorem fairPrice_median_offset_witness :
    (200 : ℤ) ∣ (1000 : ℤ) ∧
      getFairPrice ⟨1000, 2⟩ [⟨3, 10⟩, ⟨1, 11⟩, ⟨5, 3⟩] 2300 100 = some 102 := by
  refine ⟨⟨5, by norm_num⟩, ?_⟩
  have h := fairPrice_median_offset ⟨1000, 2⟩ [⟨3, 10⟩, ⟨1, 11⟩, ⟨5, 3⟩] 2300 100
    ⟨5, by norm_num⟩ (by norm_num)
  rw [h]
  norm_num [List.filter, medianOfSorted, List.insertionSort, List.orderedInsert]



/-! ## Order reconciler (src/sdk/orders.ts)

The venue RPC `user.atomic(chunk)` is modeled by an explicit list of
per-chunk outcomes (the venue's response or thrown error message for
each submitted chunk, in order).  A JS exception becomes
`Except.error`. -/

/-- `MAX_ATOMIC_ACTIONS = 4`. -/
def MAX_ATOMIC_ACTIONS : ℕ := 4

/-- A cached resting order. -/
structure CachedOrder where
  orderId : String
  side : QuoteSide
  price : ℚ
  size : ℚ
deriving DecidableEq, Repr

/-- A `UserAtomicSubaction`: a place (post-only, non-reduce-only in the
source builders) or a cancel. -/
inductive AtomicAction where
  | place (marketId : ℕ) (side : QuoteSide) (price size : ℚ)
  | cancel (orderId : String)
deriving DecidableEq, Repr

/-- Whether an action is a place (`a.kind === "place"`). -/
def AtomicAction.isPlace : AtomicAction → Bool
  | AtomicAction.place _ _ _ _ => true
  | AtomicAction.cancel _ => false

/-- One entry of an `AtomicResult`: either a `placeOrderResult` carrying
a posted `orderId`, or anything else (cancel results, or a place result
without a posted id). -/
inductive AtomicResultEntry where
  | placePosted (orderId : String)
  | other
deriving DecidableEq, Repr

/-- The pairing loop of `extractPlacedOrders`: each posted
`placeOrderResult` consumes the next place action positionally and
yields a cached order. -/
def extractPlacedGo : List AtomicResultEntry → List AtomicAction → List CachedOrder
  | [], _ => []
  | AtomicResultEntry.placePosted oid :: rs, pas =>
    match pas with
    | AtomicAction.place _ side price size :: pas2 =>
      ⟨oid, side, price, size⟩ :: extractPlacedGo rs pas2
    | AtomicAction.cancel _ :: pas2 => extractPlacedGo rs pas2
    | [] => extractPlacedGo rs []
  | AtomicResultEntry.other :: rs, pas => extractPlacedGo rs pas

/-- `extractPlacedOrders(result, actions)`. -/
def extractPlacedOrders (results : List AtomicResultEntry)
    (actions : List AtomicAction) : List CachedOrder :=
  extractPlacedGo results (actions.filter AtomicAction.isPlace)

/-- JS `msg.includes(pat)`: the pattern occurs contiguously in the
message. -/
def errIncludes (msg pat : String) : Bool :=
  decide (List.IsInfix pat.toList msg.toList)

/-- The error classes `executeAtomic` recovers from: `POST_ONLY` /
`MUST_NOT_FILL` (crossed after submission), `ORDER_NOT_FOUND` (stale
cancel), and the no-reason transient errors (`reason: undefined` or the
generic `Atomic operation failed`). -/
def recoverableAtomicError (msg : String) : Bool :=
  errIncludes msg "POST_ONLY" || errIncludes msg "MUST_NOT_FILL" ||
    errIncludes msg "ORDER_NOT_FOUND" || errIncludes msg "reason: undefined" ||
    errIncludes msg "Atomic operation failed"

/-- The venue's behavior for one submitted chunk. -/
inductive ChunkOutcome where
  | ok (results : List AtomicResultEntry)
  | err (msg : String)
deriving DecidableEq, Repr

/-- Whether the outcome is a thrown error. -/
def ChunkOutcome.isErr : ChunkOutcome → Bool
  | ChunkOutcome.ok _ => false
  | ChunkOutcome.err _ => true

/-- `actions.slice(i, i + MAX_ATOMIC_ACTIONS)` chunking. -/
def chunksOf (n : ℕ) : List AtomicAction → List (List AtomicAction)
  | [] => []
  | x :: xs => (x :: xs.take (n - 1)) :: chunksOf n (xs.drop (n - 1))
termination_by l => l.length
decreasing_by simp [List.length_drop]; omega

/-- The chunk loop of `executeAtomic` over chunks paired with their
venue outcomes: an `ok` chunk contributes its extracted placed orders; a
recoverable error is logged and skipped (setting `hadChunkErrors`); any
other error is rethrown. -/
def runChunks : List (List AtomicAction × ChunkOutcome) →
    Except String (List CachedOrder × Bool)
  | [] => Except.ok ([], false)
  | (chunk, ChunkOutcome.ok results) :: rest =>
    match runChunks rest with
    | Except.ok (orders, hadErr) =>
      Except.ok (extractPlacedOrders results chunk ++ orders, hadErr)
    | Except.error m => Except.error m
  | (_, ChunkOutcome.err msg) :: rest =>
    if recoverableAtomicError msg then
      match runChunks rest with
      | Except.ok (orders, _) => Except.ok (orders, true)
      | Except.error m => Except.error m
    else Except.error msg

/-- `executeAtomic`: early return on an empty action list, else run the
chunks of at most `MAX_ATOMIC_ACTIONS` actions against their outcomes. -/
def executeAtomic (actions : List AtomicAction) (outcomes : List ChunkOutcome) :
    Except String (List CachedOrder × Bool) :=
  if actions.isEmpty then Except.ok ([], false)
  else runChunks ((chunksOf MAX_ATOMIC_ACTIONS actions).zip outcomes)

/-- `orderMatchesQuote`: exact equality of side, price and size. -/
def orderMatchesQuote (o : CachedOrder) (q : Quote) : Bool :=
  o.side == q.side && o.price == q.price && o.size == q.size

/-- The quote a cached order occupies (proof helper). -/
def CachedOrder.toQuote (o : CachedOrder) : Quote :=
  ⟨o.side, o.price, o.size⟩

/-- `currentOrders.find((o) => orderMatchesQuote(o, quote))`. -/
def findMatching (currentOrders : List CachedOrder) (q : Quote) :
    Option CachedOrder :=
  currentOrders.find? fun o => orderMatchesQuote o q

/-- The three lists `updateQuotes` computes before acting.  JS
`keptOrders.includes(order)` compares object references; since every
entry of `keptOrders` is an element of `currentOrders` obtained by
`find`, structural membership is used here (the two coincide whenever
`currentOrders` has no structurally duplicate entries, and in the
idempotence theorem below the relevant list has none). -/
structure ReconcilePlan where
  keptOrders : List CachedOrder
  ordersToCancel : List CachedOrder
  quotesToPlace : List Quote
deriving Repr

/-- The matching pass of `updateQuotes` (source lines 333-354). -/
def planQuotes (currentOrders : List CachedOrder) (newQuotes : List Quote) :
    ReconcilePlan :=
  let keptOrders := newQuotes.filterMap fun q => findMatching currentOrders q
  let quotesToPlace := newQuotes.filter fun q => (findMatching currentOrders q).isNone
  let ordersToCancel := currentOrders.filter fun o => !(keptOrders.contains o)
  ⟨keptOrders, ordersToCancel, quotesToPlace⟩

/-- The action list `updateQuotes` submits: all cancels first, then all
places. -/
def reconcileActions (marketId : ℕ) (p : ReconcilePlan) : List AtomicAction :=
  p.ordersToCancel.map (fun o => AtomicAction.cancel o.orderId) ++
    p.quotesToPlace.map fun q => AtomicAction.place marketId q.side q.price q.size

/-- Result of `updateQuotes`. -/
structure UpdateQuotesResult where
  orders : List CachedOrder
  hadChunkErrors : Bool
deriving DecidableEq, Repr

/-- The placed orders of a fully successful `executeAtomic`: the venue
posts one order id per place action, paired positionally. -/
def placedFromIds (ids : List String) (quotesToPlace : List Quote) :
    List CachedOrder :=
  List.zipWith (fun (oid : String) (q : Quote) => ⟨oid, q.side, q.price, q.size⟩)
    ids quotesToPlace

/-- `updateQuotes` on the success path: nothing to do returns the current
orders untouched with no chunk errors; otherwise every cancel and place
succeeds, each place posting the next of `placedIds`, and the new cache
is the kept orders followed by the placed orders. -/
def updateQuotesOk (currentOrders : List CachedOrder) (newQuotes : List Quote)
    (placedIds : List String) : UpdateQuotesResult :=
  let p := planQuotes currentOrders newQuotes
  if p.ordersToCancel.isEmpty ∧ p.quotesToPlace.isEmpty then
    ⟨currentOrders, false⟩
  else ⟨p.keptOrders ++ placedFromIds placedIds p.quotesToPlace, false⟩



theorem runChunks_all_recoverable (L : List (List AtomicAction × ChunkOutcome))
    (h : ∀ chunk msg, (chunk, ChunkOutcome.err msg) ∈ L →
      recoverableAtomicError msg = true) :
    runChunks L = Except.ok
      (L.flatMap (fun p => match p.2 with
        | ChunkOutcome.ok results => extractPlacedOrders results p.1
        | ChunkOutcome.err _ => []),
        L.any fun p => p.2.isErr) := by
  induction L with
  | nil => rfl
  | cons hd rest ih =>
    obtain ⟨chunk, outcome⟩ := hd
    have hrest : ∀ chunk msg, (chunk, ChunkOutcome.err msg) ∈ rest →
        recoverableAtomicError msg = true :=
      fun c m hm => h c m (List.mem_cons_of_mem _ hm)
    cases outcome with
    | ok results =>
      simp [runChunks, ih hrest, ChunkOutcome.isErr]
    | err msg =>
      have hm := h chunk msg (List.mem_cons_self _ _)
      simp [runChunks, hm, ih hrest, ChunkOutcome.isErr]

theorem runChunks_rethrow (pre rest : List (List AtomicAction × ChunkOutcome))
    (chunk : List AtomicAction) (msg : String)
    (hpre : ∀ c m, (c, ChunkOutcome.err m) ∈ pre → recoverableAtomicError m = true)
    (hmsg : recoverableAtomicError msg = false) :
    runChunks (pre ++ (chunk, ChunkOutcome.err msg) :: rest) =
      Except.error msg := by
  induction pre with
  | nil => simp [runChunks, hmsg]
  | cons hd pre2 ih =>
    obtain ⟨c, o⟩ := hd
    have hpre2 : ∀ c m, (c, ChunkOutcome.err m) ∈ pre2 →
        recoverableAtomicError m = true :=
      fun c2 m hm => hpre c2 m (List.mem_cons_of_mem _ hm)
    cases o with
    | ok results => simp [runChunks, ih hpre2]
    | err m =>
      have hm := hpre c m (List.mem_cons_self _ _)
      simp [runChunks, hm, ih hpre2]

/-- Claim C9: executing the chunked action list, a chunk whose venue
submission fails with an error containing `POST_ONLY`, `MUST_NOT_FILL`
or `ORDER_NOT_FOUND`, or a no-reason error (`reason: undefined` /
`Atomic operation failed`), is skipped — it contributes no cached
orders while every remaining chunk still executes — and the returned
`hadChunkErrors` flag is true exactly when some chunk failed; a failure
of any other kind is rethrown to the caller. -/
theorem zip_any_isErr : ∀ (l1 : List (List AtomicAction)) (l2 : List ChunkOutcome),
    l2.length ≤ l1.length →
    ((l1.zip l2).any fun p => p.2.isErr) = l2.any ChunkOutcome.isErr := by
  intro l1
  induction l1 with
  | nil =>
    intro l2 h
    have : l2 = [] := List.length_eq_zero.mp (Nat.le_zero.mp (by simpa using h))
    subst this
    rfl
  | cons x xs ih =>
    intro l2 h
    cases l2 with
    | nil => rfl
    | cons y ys =>
      simp only [List.zip_cons_cons, List.any_cons]
      rw [ih ys (by simpa using h)]

theorem executeAtomic_error_policy (actions : List AtomicAction)
    (outcomes : List ChunkOutcome)
    (hlen : outcomes.length = (chunksOf MAX_ATOMIC_ACTIONS actions).length) :
    ((∀ msg, ChunkOutcome.err msg ∈ outcomes → recoverableAtomicError msg = true) →
      executeAtomic actions outcomes = Except.ok
        (((chunksOf MAX_ATOMIC_ACTIONS actions).zip outcomes).flatMap (fun p =>
            match p.2 with
            | ChunkOutcome.ok results => extractPlacedOrders results p.1
            | ChunkOutcome.err _ => []),
          outcomes.any ChunkOutcome.isErr)) ∧
      (∀ pre chunk msg rest,
        (chunksOf MAX_ATOMIC_ACTIONS actions).zip outcomes =
            pre ++ (chunk, ChunkOutcome.err msg) :: rest →
        (∀ c m, (c, ChunkOutcome.err m) ∈ pre → recoverableAtomicError m = true) →
        recoverableAtomicError msg = false →
        executeAtomic actions outcomes = Except.error msg) := by
  have hany : (((chunksOf MAX_ATOMIC_ACTIONS actions).zip outcomes).any
      fun p => p.2.isErr) = outcomes.any ChunkOutcome.isErr :=
    zip_any_isErr _ _ (le_of_eq hlen)
  constructor
  · intro hrec
    unfold executeAtomic
    split_ifs with hempt
    · have hacts : actions = [] := List.isEmpty_iff.mp hempt
      subst hacts
      have houts : outcomes = [] :=
        List.length_eq_zero.mp (by simpa [chunksOf] using hlen)
      subst houts
      simp [chunksOf]
    · rw [runChunks_all_recoverable _
        (fun c m hm => hrec m (List.of_mem_zip hm).2), hany]
  · intro pre chunk msg rest hsplit hpre hmsg
    unfold executeAtomic
    split_ifs with hempt
    · have hacts : actions = [] := List.isEmpty_iff.mp hempt
      subst hacts
      simp [chunksOf] at hsplit
    · rw [hsplit]
      exact runChunks_rethrow pre rest chunk msg hpre hmsg

/-- Witness for C9: two chunks — the first (four cancels) fails with a
`POST_ONLY` error and is skipped, the second (one place) still executes
and posts order `oid1` — so the call returns that one cached order with
`hadChunkErrors = true`. -/
theorem executeAtomic_error_policy_witness :
    recoverableAtomicError "Order rejected: POST_ONLY" = true ∧
      executeAtomic
          [AtomicAction.cancel "a", AtomicAction.cancel "b",
            AtomicAction.cancel "c", AtomicAction.cancel "d",
            AtomicAction.place 1 QuoteSide.bid 100 1]
          [ChunkOutcome.err "Order rejected: POST_ONLY",
            ChunkOutcome.ok [AtomicResultEntry.placePosted "oid1"]] =
        Except.ok ([⟨"oid1", QuoteSide.bid, 100, 1⟩], true) := by
  have hrec : recoverableAtomicError "Order rejected: POST_ONLY" = true := by
    decide
  refine ⟨hrec, ?_⟩
  have h := (executeAtomic_error_policy
    [AtomicAction.cancel "a", AtomicAction.cancel "b",
      AtomicAction.cancel "c", AtomicAction.cancel "d",
      AtomicAction.place 1 QuoteSide.bid 100 1]
    [ChunkOutcome.err "Order rejected: POST_ONLY",
      ChunkOutcome.ok [AtomicResultEntry.placePosted "oid1"]]
    (by simp [chunksOf, MAX_ATOMIC_ACTIONS])).1
  rw [h ?hrec]
  case hrec =>
    intro msg hm
    simp only [List.mem_cons, List.not_mem_nil, or_false] at hm
    rcases hm with hm | hm
    · cases hm
      exact hrec
    · cases hm
  · simp [chunksOf, MAX_ATOMIC_ACTIONS, extractPlacedOrders, extractPlacedGo,
      AtomicAction.isPlace, ChunkOutcome.isErr]


theorem orderMatchesQuote_iff (o : CachedOrder) (q : Quote) :
    orderMatchesQuote o q = true ↔ o.toQuote = q := by
  obtain ⟨qs, qp, qz⟩ := q
  simp [orderMatchesQuote, CachedOrder.toQuote, Bool.and_eq_true, beq_iff_eq,
    Quote.mk.injEq, and_assoc]

theorem findMatching_some {C : List CachedOrder} {q : Quote} {o : CachedOrder}
    (hf : findMatching C q = some o) :
    o ∈ C ∧ CachedOrder.toQuote o = q := by
  have hf2 : List.find? (fun x => orderMatchesQuote x q) C = some o := by
    simpa [findMatching] using hf
  refine ⟨List.mem_of_find?_eq_some hf2, ?_⟩
  have hm := List.find?_some hf2
  exact (orderMatchesQuote_iff o q).mp (by simpa using hm)

theorem keptOrders_map_toQuote (C : List CachedOrder) (Q : List Quote) :
    (Q.filterMap fun q => findMatching C q).map CachedOrder.toQuote =
      Q.filter fun q => (findMatching C q).isSome := by
  induction Q with
  | nil => rfl
  | cons q rest ih =>
    cases hf : findMatching C q with
    | none => simp [List.filterMap_cons, List.filter_cons, hf, ih]
    | some o =>
      have hq : CachedOrder.toQuote o = q := (findMatching_some hf).2
      simp [List.filterMap_cons, List.filter_cons, hf, ih, hq]

theorem planQuotes_keptOrders (C : List CachedOrder) (Q : List Quote) :
    (planQuotes C Q).keptOrders = Q.filterMap fun q => findMatching C q := rfl

theorem planQuotes_quotesToPlace (C : List CachedOrder) (Q : List Quote) :
    (planQuotes C Q).quotesToPlace =
      Q.filter fun q => (findMatching C q).isNone := rfl

theorem planQuotes_ordersToCancel (C : List CachedOrder) (Q : List Quote) :
    (planQuotes C Q).ordersToCancel =
      C.filter fun o => !((planQuotes C Q).keptOrders.contains o) := rfl

theorem placedFromIds_map_toQuote : ∀ (ids : List String) (qs : List Quote),
    ids.length = qs.length →
    (placedFromIds ids qs).map CachedOrder.toQuote = qs := by
  intro ids
  induction ids with
  | nil =>
    intro qs h
    have : qs = [] := List.length_eq_zero.mp h.symm
    subst this
    rfl
  | cons i is ih =>
    intro qs h
    cases qs with
    | nil => simp at h
    | cons q qs2 =>
      simp only [placedFromIds, List.zipWith_cons_cons, List.map_cons]
      rw [show CachedOrder.toQuote ⟨i, q.side, q.price, q.size⟩ = q from rfl]
      have := ih qs2 (by simpa using h)
      simp only [placedFromIds] at this
      rw [this]

theorem isNone_eq_not_isSome (o : Option CachedOrder) : o.isNone = !o.isSome := by
  cases o <;> rfl

/-- Claim C8: reconciliation is idempotent.  If the desired quote set
`Q` has no duplicate quotes and `updateQuotes(C, Q)` succeeds — every
cancel and place goes through, each place posting an order id — then
running `updateQuotes` again on the returned order set with the same
`Q` computes an empty cancel list and an empty place list (so it takes
the early return, submits no venue actions at all) and returns the
order set unchanged with `hadChunkErrors = false`.  Matching is exact
equality of side, price and size. -/
theorem updateQuotes_idempotent (marketId : ℕ) (C : List CachedOrder)
    (Q : List Quote) (ids : List String) (hQ : Q.Nodup)
    (hids : ids.length = (planQuotes C Q).quotesToPlace.length) :
    (planQuotes (updateQuotesOk C Q ids).orders Q).ordersToCancel = [] ∧
      (planQuotes (updateQuotesOk C Q ids).orders Q).quotesToPlace = [] ∧
      reconcileActions marketId (planQuotes (updateQuotesOk C Q ids).orders Q) = [] ∧
      updateQuotesOk (updateQuotesOk C Q ids).orders Q [] =
        ⟨(updateQuotesOk C Q ids).orders, false⟩ := by
  by_cases hempty : (planQuotes C Q).ordersToCancel.isEmpty = true ∧
      (planQuotes C Q).quotesToPlace.isEmpty = true
  · -- Nothing to do on the first call: it returns C itself.
    have hres : updateQuotesOk C Q ids = ⟨C, false⟩ := by
      unfold updateQuotesOk
      rw [if_pos hempty]
    rw [hres]
    have hc : (planQuotes C Q).ordersToCancel = [] := List.isEmpty_iff.mp hempty.1
    have hp : (planQuotes C Q).quotesToPlace = [] := List.isEmpty_iff.mp hempty.2
    refine ⟨hc, hp, ?_, ?_⟩
    · simp [reconcileActions, hc, hp]
    · unfold updateQuotesOk
      rw [if_pos hempty]
  · -- The first call returns kept ++ placed.
    have hres : (updateQuotesOk C Q ids).orders =
        (planQuotes C Q).keptOrders ++
          placedFromIds ids (planQuotes C Q).quotesToPlace := by
      unfold updateQuotesOk
      rw [if_neg hempty]
    set C2 := (updateQuotesOk C Q ids).orders with hC2
    -- The quotes occupied by the new order set are a permutation of Q.
    have hmapQ : C2.map CachedOrder.toQuote =
        (Q.filter fun q => (findMatching C q).isSome) ++
          (Q.filter fun q => (findMatching C q).isNone) := by
      rw [hres, List.map_append, planQuotes_keptOrders, keptOrders_map_toQuote,
        placedFromIds_map_toQuote ids _ hids, planQuotes_quotesToPlace]
    have hperm : List.Perm (C2.map CachedOrder.toQuote) Q := by
      rw [hmapQ]
      have hcongr : (Q.filter fun q => (findMatching C q).isNone) =
          Q.filter fun q => !(findMatching C q).isSome :=
        List.filter_congr fun q _ => isNone_eq_not_isSome _
      rw [hcongr]
      exact List.filter_append_perm _ Q
    have hnodupT : (C2.map CachedOrder.toQuote).Nodup := hperm.nodup_iff.mpr hQ
    -- Every quote of Q is matched by exactly one order of C2.
    have hmatched : ∀ q ∈ Q, ∃ o, findMatching C2 q = some o := by
      intro q hq
      have hqmem : q ∈ C2.map CachedOrder.toQuote := hperm.mem_iff.mpr hq
      obtain ⟨o, hoC2, hoq⟩ := List.mem_map.mp hqmem
      have : (C2.find? fun o => orderMatchesQuote o q).isSome := by
        rw [List.find?_isSome]
        exact ⟨o, hoC2, (orderMatchesQuote_iff o q).mpr hoq⟩
      obtain ⟨o2, ho2⟩ := Option.isSome_iff_exists.mp this
      exact ⟨o2, by simpa [findMatching] using ho2⟩
    have hplace : (planQuotes C2 Q).quotesToPlace = [] := by
      rw [planQuotes_quotesToPlace, List.filter_eq_nil_iff]
      intro q hq
      obtain ⟨o, ho⟩ := hmatched q hq
      simp [ho]
    have hkept : ∀ o ∈ C2, o ∈ (planQuotes C2 Q).keptOrders := by
      intro o hoC2
      have hqQ : CachedOrder.toQuote o ∈ Q :=
        hperm.mem_iff.mp (List.mem_map_of_mem _ hoC2)
      obtain ⟨o2, ho2⟩ := hmatched (CachedOrder.toQuote o) hqQ
      obtain ⟨ho2C2, ho2q⟩ := findMatching_some ho2
      have ho2o : o2 = o :=
        List.inj_on_of_nodup_map hnodupT ho2C2 hoC2 ho2q
      rw [ho2o] at ho2
      rw [planQuotes_keptOrders]
      exact List.mem_filterMap.mpr ⟨CachedOrder.toQuote o, hqQ, ho2⟩
    have hcancel : (planQuotes C2 Q).ordersToCancel = [] := by
      rw [planQuotes_ordersToCancel, List.filter_eq_nil_iff]
      intro o hoC2
      have hmem := hkept o hoC2
      have hc : (planQuotes C2 Q).keptOrders.contains o = true :=
        List.contains_iff_exists_mem_beq.mpr ⟨o, hmem, by simp⟩
      simp [hc, hmem]
    refine ⟨hcancel, hplace, ?_, ?_⟩
    · simp [reconcileActions, hcancel, hplace]
    · unfold updateQuotesOk
      rw [if_pos ⟨by simp [hcancel], by simp [hplace]⟩]

/-- Witness for C8 (scenario S6): current orders
`{a: bid 100x1, b: ask 101x1}`, desired `{bid 100x1, ask 102x1}`; the
first reconcile keeps `a`, cancels `b` and places the ask at 102 as
order `n1`; the second reconcile over the returned set computes no
cancels and no places and returns it unchanged. -/
theorem updateQuotes_idempotent_witness :
    ([⟨QuoteSide.bid, 100, 1⟩, ⟨QuoteSide.ask, 102, 1⟩] : List Quote).Nodup ∧
      (planQuotes
          (updateQuotesOk
            [⟨"a", QuoteSide.bid, 100, 1⟩, ⟨"b", QuoteSide.ask, 101, 1⟩]
            [⟨QuoteSide.bid, 100, 1⟩, ⟨QuoteSide.ask, 102, 1⟩] ["n1"]).orders
          [⟨QuoteSide.bid, 100, 1⟩, ⟨QuoteSide.ask, 102, 1⟩]).ordersToCancel = [] ∧
      (planQuotes
          (updateQuotesOk
            [⟨"a", QuoteSide.bid, 100, 1⟩, ⟨"b", QuoteSide.ask, 101, 1⟩]
            [⟨QuoteSide.bid, 100, 1⟩, ⟨QuoteSide.ask, 102, 1⟩] ["n1"]).orders
          [⟨QuoteSide.bid, 100, 1⟩, ⟨QuoteSide.ask, 102, 1⟩]).quotesToPlace = [] ∧
      updateQuotesOk
          (updateQuotesOk
            [⟨"a", QuoteSide.bid, 100, 1⟩, ⟨"b", QuoteSide.ask, 101, 1⟩]
            [⟨QuoteSide.bid, 100, 1⟩, ⟨QuoteSide.ask, 102, 1⟩] ["n1"]).orders
          [⟨QuoteSide.bid, 100, 1⟩, ⟨QuoteSide.ask, 102, 1⟩] [] =
        ⟨(updateQuotesOk
            [⟨"a", QuoteSide.bid, 100, 1⟩, ⟨"b", QuoteSide.ask, 101, 1⟩]
            [⟨QuoteSide.bid, 100, 1⟩, ⟨QuoteSide.ask, 102, 1⟩] ["n1"]).orders,
          false⟩ := by
  have h := updateQuotes_idempotent 7
    [⟨"a", QuoteSide.bid, 100, 1⟩, ⟨"b", QuoteSide.ask, 101, 1⟩]
    [⟨QuoteSide.bid, 100, 1⟩, ⟨QuoteSide.ask, 102, 1⟩] ["n1"]
    (by decide) (by decide)
  exact ⟨by decide, h.1, h.2.1, h.2.2.2⟩

/-- `MarketMaker.executeUpdate` calls
`updateQuotes(user, marketId, activeOrders, quotes, repriceThresholdBps)`
with five arguments while `updateQuotes` declares four parameters, so
JavaScript discards the fifth; this wrapper is that call, taking the
threshold and — like the call — never using it. -/
def executeUpdateReconcile (repriceThresholdBps : ℚ)
    (currentOrders : List CachedOrder) (newQuotes : List Quote)
    (placedIds : List String) : UpdateQuotesResult :=
  updateQuotesOk currentOrders newQuotes placedIds

/-- Claim C10: `repriceThresholdBps` has no effect on quote
reconciliation — for any two threshold values and otherwise identical
inputs, the reconcile call returns the same order cache (and, the plan
being threshold-independent, issues the same actions), because
`updateQuotes` declares only four parameters and never reads the
threshold `executeUpdate` passes fifth. -/
theorem repriceThreshold_no_effect (t1 t2 : ℚ) (currentOrders : List CachedOrder)
    (newQuotes : List Quote) (placedIds : List String) :
    executeUpdateReconcile t1 currentOrders newQuotes placedIds =
        executeUpdateReconcile t2 currentOrders newQuotes placedIds ∧
      executeUpdateReconcile t1 currentOrders newQuotes placedIds =
        updateQuotesOk currentOrders newQuotes placedIds :=
  ⟨rfl, rfl⟩

end ZoMM
